import Mathlib

/-!
Verification development for the Afterburner magic-key classifier
(`afterburner-magic.ts` in `keybr-textinput-ui`).

The classifier is embedded shallowly: characters are code points (`Nat`),
a line of text is a `List Nat`, indices are `Int` (JavaScript numbers used
as indices may be negative), and JavaScript `toLowerCase` is modelled on
the ASCII range, which covers every character appearing in the rule tables
and the curated override words.
-/

/-- Tag for a character: typed with the magic key or the skip magic key.
The TypeScript `MagicType` also admits `null`; that is `Option MagicType`
here, with `none` standing for `null`. -/
inductive MagicType where
  | magic
  | skipMagic
deriving DecidableEq

/-- A line of practice text: the code points of its characters. -/
abbrev Chars := List Nat

/-- ASCII model of JavaScript `toLowerCase` on a single code point. -/
def toLower (cp : Nat) : Nat :=
  if 0x41 ≤ cp ∧ cp ≤ 0x5A then cp + 0x20 else cp

/-- Code points of a string literal. -/
def cpsOf (s : String) : Chars :=
  s.data.map Char.toNat

/-- Read the code point at an `Int` index; out-of-range reads return 0.
Every use below is guarded by a bounds check, so the default is inert. -/
def getCp (chars : Chars) (i : Int) : Nat :=
  if i < 0 then 0 else chars.getD i.toNat 0

/-- A word-override entry: `none` is TypeScript `undefined` (fall through
to the algorithm), `some none` is an explicit `null` (force no magic),
`some (some t)` forces tag `t`. -/
abbrev OverrideEntry := Option (Option MagicType)

/-- `WordOverride`: the per-position forced tags for one curated word. -/
abbrev WordOverride := List OverrideEntry

/-- `parseOverridePattern`: `#` forces magic, `$` forces skip magic, any
other character forces `null` (no magic). -/
def parseOverridePattern (pattern : Chars) : WordOverride :=
  pattern.map fun c =>
    if c = 0x23 then some (some MagicType.magic)
    else if c = 0x24 then some (some MagicType.skipMagic)
    else some none

/-- `DEFAULT_WORD_OVERRIDES`: curated word → pattern string. -/
def DEFAULT_WORD_OVERRIDES : List (Chars × Chars) := [
  (cpsOf "queue", cpsOf "qu$u$"),
  (cpsOf "institute", cpsOf "institut$"),
  (cpsOf "amusement", cpsOf "amus$memt"),
  (cpsOf "quieted", cpsOf "qui$ted")
]

/-- `PARSED_WORD_OVERRIDES`: the override table with patterns parsed. -/
def PARSED_WORD_OVERRIDES : List (Chars × WordOverride) :=
  DEFAULT_WORD_OVERRIDES.map fun p => (p.1, parseOverridePattern p.2)

/-- Override lookup in an explicit table (the table is a parameter so the
lookup logic can be stated for any curated data; the shipped function
`getWordOverride` fixes it to `PARSED_WORD_OVERRIDES`). The queried word
is lowercased before lookup, as in the source. -/
def getWordOverrideIn (table : List (Chars × WordOverride)) (word : Chars) :
    Option WordOverride :=
  table.lookup (word.map toLower)

/-- `getWordOverride`: override lookup in the shipped table. -/
def getWordOverride (word : Chars) : Option WordOverride :=
  getWordOverrideIn PARSED_WORD_OVERRIDES word

/-- A code point at which word extraction stops: space, tab or newline. -/
def isWordBoundary (cp : Nat) : Bool :=
  cp == 0x20 || cp == 0x09 || cp == 0x0A

/-- Backward scan of `extractWord`: the start of the word containing the
given index (first position not preceded by a word boundary). -/
def findWordStart (chars : Chars) : Nat → Nat
  | 0 => 0
  | n + 1 => if isWordBoundary (chars.getD n 0) then n + 1 else findWordStart chars n

/-- Forward scan of `extractWord`, counting down the remaining positions so
the recursion is structural. -/
def findWordEndAux (chars : Chars) : Nat → Nat → Nat
  | 0, i => i
  | rem + 1, i =>
    if isWordBoundary (chars.getD (i + 1) 0) then i else findWordEndAux chars rem (i + 1)

/-- The end of the word containing the given index: scan forward while the
next position exists and is not a word boundary. -/
def findWordEnd (chars : Chars) (i : Nat) : Nat :=
  findWordEndAux chars (chars.length - 1 - i) i

/-- `extractWord`: the whitespace-delimited word containing `index`,
lowercased, together with the index's offset inside it. Out-of-range
indices yield `none`. -/
def extractWord (chars : Chars) (index : Int) : Option (Chars × Nat) :=
  if index < 0 ∨ (chars.length : Int) ≤ index then none
  else
    let i := index.toNat
    let ws := findWordStart chars i
    let we := findWordEnd chars i
    let word := (List.range (we + 1 - ws)).map fun k => toLower (chars.getD (ws + k) 0)
    some (word, i - ws)

/-- `MAGIC_RULES`: trigger (the previous character) → magic-key output. -/
def MAGIC_RULES : List (Nat × Nat) := [
  (0x61, 0x6F), -- a → o
  (0x67, 0x73), -- g → s
  (0x68, 0x79), -- h → y
  (0x75, 0x65), -- u → e
  (0x78, 0x74), -- x → t
  (0x79, 0x68)  -- y → h
]

/-- `SKIP_MAGIC_RULES`: trigger (two characters back) → skip-magic output. -/
def SKIP_MAGIC_RULES : List (Nat × Nat) := [
  (0x61, 0x6F), -- a → o
  (0x62, 0x6E), -- b → n
  (0x64, 0x74), -- d → t
  (0x66, 0x73), -- f → s
  (0x67, 0x73), -- g → s
  (0x68, 0x79), -- h → y
  (0x6A, 0x79), -- j → y
  (0x6B, 0x74), -- k → t
  (0x6C, 0x72), -- l → r
  (0x6D, 0x6B), -- m → k
  (0x6F, 0x61), -- o → a
  (0x70, 0x6E), -- p → n
  (0x71, 0x65), -- q → e
  (0x72, 0x6C), -- r → l
  (0x75, 0x65), -- u → e
  (0x76, 0x74), -- v → t
  (0x78, 0x74), -- x → t
  (0x79, 0x68), -- y → h
  (0x2C, 0x69), -- , → i
  (0x2E, 0x69), -- . → i
  (0x2D, 0x69), -- - → i
  (0x2F, 0x61), -- / → a
  (0x3B, 0x65)  -- ; → e
]

/-- `MAGIC_RULES.get`, returning `none` for a trigger with no entry. -/
def magicRulesGet (c : Nat) : Option Nat :=
  MAGIC_RULES.lookup c

/-- `SKIP_MAGIC_RULES.get`, returning `none` for a trigger with no entry. -/
def skipMagicRulesGet (c : Nat) : Option Nat :=
  SKIP_MAGIC_RULES.lookup c

/-- The magic-key match at `index`: the explicit rule for the previous
character outputs the current character, or (repeat rule) the previous
character has no explicit rule and equals the current character. -/
def magicMatchAt (chars : Chars) (index : Int) : Bool :=
  let currentChar := toLower (getCp chars index)
  let lastChar := toLower (getCp chars (index - 1))
  (magicRulesGet lastChar == some currentChar) ||
    (lastChar == currentChar && (magicRulesGet lastChar).isNone)

/-- The skip-magic match at `index`: the explicit rule for the character
two back outputs the current character, or (repeat rule) that character
has no explicit rule and equals the current character. -/
def skipMagicMatchAt (chars : Chars) (index : Int) : Bool :=
  let currentChar := toLower (getCp chars index)
  let secondToLastChar := toLower (getCp chars (index - 2))
  (skipMagicRulesGet secondToLastChar == some currentChar) ||
    (secondToLastChar == currentChar && (skipMagicRulesGet secondToLastChar).isNone)

/-- `wouldUseMagicKey`: would the character at `index` be typed with the
magic key? -/
def wouldUseMagicKey (chars : Chars) (index : Int) : Bool :=
  if index < 1 ∨ (chars.length : Int) ≤ index then false
  else magicMatchAt chars index

/-- The three options consulted by `wouldUseSkipMagicKey`. -/
structure SkipOptions where
  suppressSkipMagicAfterMagic : Bool
  suppressSkipMagicAfterSkipMagic : Bool
  suppressSkipMagicAfterSpace : Bool
deriving DecidableEq

/-- `wouldUseSkipMagicKey`, with an explicit recursion budget. The source
recursion passes `suppressSkipMagicAfterSkipMagic: false` to its single
nested call, so the nested call never recurses again; two units of fuel
always suffice (`wouldUseSkipMagicKeyFuel_stable`). -/
def wouldUseSkipMagicKeyFuel (chars : Chars) : Nat → Int → SkipOptions → Bool
  | 0, _, _ => false
  | fuel + 1, index, o =>
    if index < 2 ∨ (chars.length : Int) ≤ index then false
    else if o.suppressSkipMagicAfterMagic && wouldUseMagicKey chars (index - 2) then false
    else if o.suppressSkipMagicAfterSkipMagic && decide (3 ≤ index) &&
        wouldUseSkipMagicKeyFuel chars fuel (index - 1)
          ⟨o.suppressSkipMagicAfterMagic, false, o.suppressSkipMagicAfterSpace⟩ then false
    else if o.suppressSkipMagicAfterSpace && (getCp chars (index - 1) == 0x20) then false
    else skipMagicMatchAt chars index

/-- `wouldUseSkipMagicKey`: would the character at `index` be typed with
the skip magic key, under the given suppression options? -/
def wouldUseSkipMagicKey (chars : Chars) (index : Int) (o : SkipOptions) : Bool :=
  wouldUseSkipMagicKeyFuel chars 2 index o

/-- `MagicOptions`: the five booleans supplied to `getMagicType`. -/
structure MagicOptions where
  suppressSkipMagicAfterMagic : Bool
  suppressSkipMagicAfterSkipMagic : Bool
  suppressMagicAfterSkipMagic : Bool
  suppressSkipMagicAfterSpace : Bool
  magicKeyWordOverridesEnabled : Bool
deriving DecidableEq

/-- `defaultMagicOptions`: all suppressions and the override table on. -/
def defaultMagicOptions : MagicOptions :=
  ⟨true, true, true, true, true⟩

/-- The suppression disjunction guarding the skip-magic branch of
`getMagicType`: magic at `index - 2`, skip magic at `index - 1`
(evaluated with the after-skip-magic flag forced off), or a space at
`index - 1`. -/
def suppressSkipAt (chars : Chars) (index : Int) (o : MagicOptions) : Bool :=
  (o.suppressSkipMagicAfterMagic && wouldUseMagicKey chars (index - 2)) ||
  (o.suppressSkipMagicAfterSkipMagic && decide (3 ≤ index) &&
    wouldUseSkipMagicKey chars (index - 1)
      ⟨o.suppressSkipMagicAfterMagic, false, o.suppressSkipMagicAfterSpace⟩) ||
  (o.suppressSkipMagicAfterSpace && (getCp chars (index - 1) == 0x20))

/-- The suppression guarding the magic branch of `getMagicType`: skip
magic at `index - 1`, evaluated with the caller's full flag set. -/
def suppressMagicAt (chars : Chars) (index : Int) (o : MagicOptions) : Bool :=
  o.suppressMagicAfterSkipMagic &&
    wouldUseSkipMagicKey chars (index - 1)
      ⟨o.suppressSkipMagicAfterMagic, o.suppressSkipMagicAfterSkipMagic,
        o.suppressSkipMagicAfterSpace⟩

/-- Steps 3–5 of `getMagicType`: the skip-magic check (from index 2 on,
subject to its three suppressions), then the magic check (from index 1
on, subject to its suppression), then `none`. -/
def magicRuleEvaluation (chars : Chars) (index : Int) (o : MagicOptions) : Option MagicType :=
  if decide (2 ≤ index) && !suppressSkipAt chars index o && skipMagicMatchAt chars index then
    some MagicType.skipMagic
  else if decide (1 ≤ index) && !suppressMagicAt chars index o && magicMatchAt chars index then
    some MagicType.magic
  else none

/-- The word-override step of `getMagicType`, against an explicit table:
when overrides are enabled and the word containing `index` has an
override whose length exceeds the offset, the entry at the offset;
`none` (undefined) means fall through to rule evaluation. -/
def overrideEntryIn (table : List (Chars × WordOverride)) (chars : Chars) (index : Int)
    (o : MagicOptions) : OverrideEntry :=
  if o.magicKeyWordOverridesEnabled then
    match extractWord chars index with
    | some wi =>
      match getWordOverrideIn table wi.1 with
      | some ov => if wi.2 < ov.length then ov.getD wi.2 none else none
      | none => none
    | none => none
  else none

/-- The word-override step against the shipped table. -/
def overrideEntry (chars : Chars) (index : Int) (o : MagicOptions) : OverrideEntry :=
  overrideEntryIn PARSED_WORD_OVERRIDES chars index o

/-- `getMagicType` with the override table as a parameter: bounds guard,
then the word-override step, then rule evaluation. -/
def getMagicTypeWith (table : List (Chars × WordOverride)) (chars : Chars) (index : Int)
    (o : MagicOptions) : Option MagicType :=
  if index < 0 ∨ (chars.length : Int) ≤ index then none
  else
    match overrideEntryIn table chars index o with
    | some v => v
    | none => magicRuleEvaluation chars index o

/-- `getMagicType`: the classifier, with the shipped override table. -/
def getMagicType (chars : Chars) (index : Int) (o : MagicOptions) : Option MagicType :=
  getMagicTypeWith PARSED_WORD_OVERRIDES chars index o

/-- One unit of fuel suffices when the after-skip-magic flag is off: the
recursion branch of `wouldUseSkipMagicKeyFuel` is then dead. -/
theorem wouldUseSkipMagicKeyFuel_flagOff (chars : Chars) (n : Nat) (index : Int)
    (o : SkipOptions) (h : o.suppressSkipMagicAfterSkipMagic = false) :
    wouldUseSkipMagicKeyFuel chars (n + 1) index o =
      wouldUseSkipMagicKeyFuel chars 1 index o := by
  simp [wouldUseSkipMagicKeyFuel, h]

/-- Two units of fuel suffice for `wouldUseSkipMagicKeyFuel`: the single
nested call runs with the after-skip-magic flag forced off. -/
theorem wouldUseSkipMagicKeyFuel_stable (chars : Chars) (n : Nat) (index : Int)
    (o : SkipOptions) :
    wouldUseSkipMagicKeyFuel chars (n + 2) index o =
      wouldUseSkipMagicKeyFuel chars 2 index o := by
  simp [wouldUseSkipMagicKeyFuel]

/-- `extractWord` succeeds only on in-range indices. -/
theorem extractWord_inRange (chars : Chars) (index : Int) (wi : Chars × Nat)
    (hw : extractWord chars index = some wi) :
    ¬(index < 0 ∨ (chars.length : Int) ≤ index) := by
  intro h
  unfold extractWord at hw
  rw [if_pos h] at hw
  exact Option.noConfusion hw

/-- Every override in the shipped table is non-empty, starts with an
explicit no-magic entry, and contains no undefined entry. -/
theorem getWordOverride_facts (word : Chars) (ov : WordOverride)
    (h : getWordOverride word = some ov) :
    0 < ov.length ∧ ov.getD 0 none = some none ∧ ov.all Option.isSome = true := by
  unfold getWordOverride getWordOverrideIn PARSED_WORD_OVERRIDES DEFAULT_WORD_OVERRIDES at h
  simp [List.lookup] at h
  split at h
  · injection h with h
    subst h
    decide
  · split at h
    · injection h with h
      subst h
      decide
    · split at h
      · injection h with h
        subst h
        decide
      · split at h
        · injection h with h
          subst h
          decide
        · exact absurd h (by simp)

/-- In a list whose entries are all defined, `getD` at an in-range
position is defined. -/
theorem getD_isSome_of_all {α : Type} (l : List (Option α))
    (h : l.all Option.isSome = true) (i : Nat) (hi : i < l.length) :
    (l.getD i none).isSome = true := by
  rw [List.getD_eq_getElem l none hi]
  exact List.all_eq_true.mp h _ (List.getElem_mem hi)

/-- C3: the nested skip-style predicate terminates with bounded recursion:
the one self-call runs with `suppressSkipMagicAfterSkipMagic` forced off
and so never recurses again. In fuel form: any fuel of at least 2 computes
the predicate's value, and with the flag off any fuel of at least 1 does. -/
theorem skipMagic_recursion_bounded :
    (∀ (chars : Chars) (index : Int) (o : SkipOptions) (fuel : Nat), 2 ≤ fuel →
      wouldUseSkipMagicKeyFuel chars fuel index o = wouldUseSkipMagicKey chars index o) ∧
    (∀ (chars : Chars) (index : Int) (o : SkipOptions) (fuel : Nat),
      o.suppressSkipMagicAfterSkipMagic = false → 1 ≤ fuel →
      wouldUseSkipMagicKeyFuel chars fuel index o =
        wouldUseSkipMagicKeyFuel chars 1 index o) := by
  constructor
  · intro chars index o fuel h
    obtain ⟨n, rfl⟩ : ∃ n, fuel = n + 2 := ⟨fuel - 2, by omega⟩
    exact wouldUseSkipMagicKeyFuel_stable chars n index o
  · intro chars index o fuel hflag h
    obtain ⟨n, rfl⟩ : ∃ n, fuel = n + 1 := ⟨fuel - 1, by omega⟩
    exact wouldUseSkipMagicKeyFuel_flagOff chars n index o hflag

theorem skipMagic_recursion_bounded_witness :
    wouldUseSkipMagicKeyFuel (cpsOf "banana") 9 5 ⟨true, true, true⟩ =
      wouldUseSkipMagicKey (cpsOf "banana") 5 ⟨true, true, true⟩ :=
  skipMagic_recursion_bounded.1 (cpsOf "banana") 5 ⟨true, true, true⟩ 9 (by decide)

/-- C4: an out-of-range index (negative, or at least the sequence length,
including any index into the empty sequence) classifies as `none`. -/
theorem getMagicType_out_of_range (chars : Chars) (index : Int) (o : MagicOptions)
    (h : index < 0 ∨ (chars.length : Int) ≤ index) :
    getMagicType chars index o = none := by
  unfold getMagicType getMagicTypeWith
  rw [if_pos h]

theorem getMagicType_out_of_range_witness :
    getMagicType [] 0 defaultMagicOptions = none ∧
    getMagicType (cpsOf "ab") (-1) defaultMagicOptions = none ∧
    getMagicType (cpsOf "ab") 2 defaultMagicOptions = none :=
  ⟨getMagicType_out_of_range [] 0 defaultMagicOptions (by decide),
   getMagicType_out_of_range (cpsOf "ab") (-1) defaultMagicOptions (by decide),
   getMagicType_out_of_range (cpsOf "ab") 2 defaultMagicOptions (by decide)⟩

/-- C6: `parseOverridePattern` is total, preserves length, and maps `#` to
a forced magic entry, `$` to a forced skip-magic entry, and anything else
to a forced no-magic entry. -/
theorem parseOverridePattern_spec (p : Chars) :
    (parseOverridePattern p).length = p.length ∧
    ∀ i, i < p.length →
      (parseOverridePattern p).getD i none =
        (if p.getD i 0 = 0x23 then some (some MagicType.magic)
         else if p.getD i 0 = 0x24 then some (some MagicType.skipMagic)
         else some none) := by
  constructor
  · simp [parseOverridePattern]
  · intro i hi
    have hi' : i < (parseOverridePattern p).length := by
      simpa [parseOverridePattern] using hi
    rw [List.getD_eq_getElem _ none hi', List.getD_eq_getElem _ 0 hi]
    simp [parseOverridePattern]

theorem parseOverridePattern_spec_witness :
    (parseOverridePattern (cpsOf "qu$u$")).getD 2 none = some (some MagicType.skipMagic) := by
  have h := (parseOverridePattern_spec (cpsOf "qu$u$")).2 2 (by decide)
  rw [h]
  decide

/-- C8: neither rule table contains a trigger mapping to itself. -/
theorem rule_tables_no_self_map :
    (MAGIC_RULES.all fun p => p.2 != p.1) = true ∧
    (SKIP_MAGIC_RULES.all fun p => p.2 != p.1) = true := by
  decide

/-- C10: in the shipped override table every pattern is exactly as long as
its word, and every parsed entry is a forced (defined) tag, so the
out-of-bounds fall-through of the override lookup is unreachable on the
shipped data. -/
theorem shipped_overrides_length_invariant :
    (DEFAULT_WORD_OVERRIDES.all fun p => p.2.length == p.1.length) = true ∧
    (PARSED_WORD_OVERRIDES.all fun p =>
      (p.2.length == p.1.length) && p.2.all Option.isSome) = true := by
  decide

/-- At index 0 the extracted word starts at the sequence start, so the
offset within it is 0. -/
theorem extractWord_zero (chars : Chars) (h : 0 < chars.length) :
    ∃ w, extractWord chars 0 = some (w, 0) := by
  unfold extractWord
  rw [if_neg (by omega)]
  exact ⟨_, rfl⟩

/-- C2: when no word override applies at the position and, at an index of
at least 2, both the skip-style and the direct-style matches hold with
neither suppressed, the classifier returns skip-style, never
direct-style. -/
theorem skipMagic_priority (chars : Chars) (index : Int) (o : MagicOptions)
    (h0 : 0 ≤ index) (h1 : index < (chars.length : Int))
    (hov : overrideEntry chars index o = none)
    (h2 : 2 ≤ index)
    (hskip : skipMagicMatchAt chars index = true)
    (hnoskip : suppressSkipAt chars index o = false)
    (hmagic : magicMatchAt chars index = true)
    (hnomagic : suppressMagicAt chars index o = false) :
    getMagicType chars index o = some MagicType.skipMagic := by
  unfold getMagicType getMagicTypeWith
  rw [if_neg (by omega)]
  rw [show overrideEntryIn PARSED_WORD_OVERRIDES chars index o = none from hov]
  simp [magicRuleEvaluation, hskip, hnoskip, h2]

theorem skipMagic_priority_witness :
    getMagicType (cpsOf "aao") 2 ⟨false, false, false, false, false⟩ =
      some MagicType.skipMagic :=
  skipMagic_priority (cpsOf "aao") 2 ⟨false, false, false, false, false⟩ (by decide)
    (by decide) (by decide) (by decide) (by decide) (by decide) (by decide) (by decide)

/-- C1: with overrides enabled, when the lowercased word containing the
index has a curated override and the offset is within it, the classifier
returns exactly the override's entry at that offset, bypassing rule
matching and every suppression flag; in particular "queue" classifies as
skip-style at indices 2 and 4 under every suppression-flag combination. -/
theorem override_short_circuit :
    (∀ (chars : Chars) (index : Int) (o : MagicOptions) (word : Chars) (pos : Nat)
      (ov : WordOverride),
      o.magicKeyWordOverridesEnabled = true →
      extractWord chars index = some (word, pos) →
      getWordOverride word = some ov →
      pos < ov.length →
      some (getMagicType chars index o) = ov.getD pos none) ∧
    (∀ o : MagicOptions, o.magicKeyWordOverridesEnabled = true →
      getMagicType (cpsOf "queue") 2 o = some MagicType.skipMagic ∧
      getMagicType (cpsOf "queue") 4 o = some MagicType.skipMagic) := by
  constructor
  · intro chars index o word pos ov hen hw hg hlt
    have hb := extractWord_inRange chars index _ hw
    have hsome := getD_isSome_of_all ov (getWordOverride_facts word ov hg).2.2 pos hlt
    obtain ⟨v, hv⟩ := Option.isSome_iff_exists.mp hsome
    unfold getMagicType getMagicTypeWith overrideEntryIn
    rw [if_neg hb, hen]
    simp only [if_true, hw]
    rw [show getWordOverrideIn PARSED_WORD_OVERRIDES word = some ov from hg]
    rw [List.getD_eq_getElem ov none hlt] at hv
    simp [hlt, hv]
  · intro o hen
    obtain ⟨a, b, c, d, e⟩ := o
    cases a <;> cases b <;> cases c <;> cases d <;> cases e <;>
      first
        | exact absurd hen (by decide)
        | exact ⟨by decide, by decide⟩

theorem override_short_circuit_witness :
    some (getMagicType (cpsOf "queue") 2 defaultMagicOptions) =
      (parseOverridePattern (cpsOf "qu$u$")).getD 2 none :=
  override_short_circuit.1 (cpsOf "queue") 2 defaultMagicOptions (cpsOf "queue") 2
    (parseOverridePattern (cpsOf "qu$u$")) rfl (by decide) (by decide) (by decide)

/-- C5: on any non-empty sequence, index 0 classifies as `none` for every
options record: no rule can fire without a preceding character, and every
shipped override forces an explicit no-magic entry at its word's first
position. -/
theorem getMagicType_index_zero (chars : Chars) (o : MagicOptions) (h : chars ≠ []) :
    getMagicType chars 0 o = none := by
  have hlen : 0 < chars.length := List.length_pos.mpr h
  have hb : ¬((0 : Int) < 0 ∨ (chars.length : Int) ≤ 0) := by omega
  have hrule : magicRuleEvaluation chars 0 o = none := by
    simp [magicRuleEvaluation]
  unfold getMagicType getMagicTypeWith
  rw [if_neg hb]
  cases hen : o.magicKeyWordOverridesEnabled with
  | false => simp [overrideEntryIn, hen, hrule]
  | true =>
    obtain ⟨w, hw⟩ := extractWord_zero chars hlen
    cases hg : getWordOverride w with
    | none =>
      rw [getWordOverride, getWordOverrideIn] at hg
      simp [overrideEntryIn, hen, hw, getWordOverrideIn, hg, hrule]
    | some ov =>
      obtain ⟨hpos, hfirst, _⟩ := getWordOverride_facts w ov hg
      rw [List.getD_eq_getElem ov none hpos] at hfirst
      rw [getWordOverride, getWordOverrideIn] at hg
      simp [overrideEntryIn, hen, hw, getWordOverrideIn, hg, hpos, hfirst]

theorem getMagicType_index_zero_witness :
    getMagicType (cpsOf "queue") 0 defaultMagicOptions = none :=
  getMagicType_index_zero (cpsOf "queue") defaultMagicOptions (by decide)

/-- C7: with overrides enabled, a curated override does not apply at an
offset at or beyond its pattern's length: classification falls through to
rule-based evaluation, with no error. Stated for an arbitrary override
table; the shipped `getMagicType` is `getMagicTypeWith` at
`PARSED_WORD_OVERRIDES`, whose patterns all match their word lengths. -/
theorem override_out_of_bounds_falls_through (table : List (Chars × WordOverride))
    (chars : Chars) (index : Int) (o : MagicOptions) (word : Chars) (pos : Nat)
    (ov : WordOverride)
    (hen : o.magicKeyWordOverridesEnabled = true)
    (hw : extractWord chars index = some (word, pos))
    (hg : getWordOverrideIn table word = some ov)
    (hge : ov.length ≤ pos) :
    getMagicTypeWith table chars index o = magicRuleEvaluation chars index o := by
  have hb := extractWord_inRange chars index _ hw
  unfold getMagicTypeWith overrideEntryIn
  rw [if_neg hb, hen]
  simp only [if_true, hw]
  rw [show getWordOverrideIn table word = some ov from hg]
  simp [show ¬pos < ov.length from by omega]

/-- A one-entry override table whose pattern is shorter than its word. -/
def shortOverrideTable : List (Chars × WordOverride) :=
  [(cpsOf "ab", [some (some MagicType.magic)])]

theorem override_out_of_bounds_falls_through_witness :
    getMagicTypeWith shortOverrideTable (cpsOf "ab") 1 defaultMagicOptions =
      magicRuleEvaluation (cpsOf "ab") 1 defaultMagicOptions :=
  override_out_of_bounds_falls_through shortOverrideTable (cpsOf "ab") 1
    defaultMagicOptions (cpsOf "ab") 1 [some (some MagicType.magic)] rfl (by decide)
    (by decide) (by decide)

/-- C9: the space-boundary suppression matches only U+0020: with the flag
on, a space at `index - 1` forces the skip-style suppression, while a tab
or newline there does not trigger it (so a skip-style hint may cross a
tab- or newline-separated word boundary), even though word extraction
treats all three code points as boundaries. -/
theorem space_suppression_only_space :
    (∀ (chars : Chars) (index : Int) (o : MagicOptions),
      o.suppressSkipMagicAfterSpace = true → getCp chars (index - 1) = 0x20 →
      suppressSkipAt chars index o = true) ∧
    (isWordBoundary 0x20 = true ∧ isWordBoundary 0x09 = true ∧ isWordBoundary 0x0A = true) ∧
    getMagicType (cpsOf "d\tt") 2 defaultMagicOptions = some MagicType.skipMagic ∧
    getMagicType (cpsOf "d\nt") 2 defaultMagicOptions = some MagicType.skipMagic ∧
    getMagicType (cpsOf "d t") 2 defaultMagicOptions = none := by
  refine ⟨?_, by decide, by decide, by decide, by decide⟩
  intro chars index o h1 h2
  simp [suppressSkipAt, h1, h2]

theorem space_suppression_only_space_witness :
    suppressSkipAt (cpsOf "a b") 2 defaultMagicOptions = true :=
  space_suppression_only_space.1 (cpsOf "a b") 2 defaultMagicOptions rfl (by decide)
